import Mathlib

/-!
Shallow embedding of the Sentinel governance decision engine
(src/bin/sentinel.py) and proofs of its specified voting properties.

Object hashes are modelled as byte lists; Python string comparison on hex
hash strings is byte-wise lexicographic, modelled by hashLe below.
Timestamps and epochs are Int, matching Python exact integer arithmetic.

The model classes (Watchdog, Superblock, Proposal, Transient, Scheduler)
live outside the given sources; definitions for them are modelled from the
spec and carry a doc comment saying so.  The orchestration functions
(watchdog_check, prune_expired_proposals, attempt_superblock_creation,
main, signal_handler, entrypoint) are translated from src/bin/sentinel.py.
-/

namespace Sentinel

/-- A governance object hash, as a byte sequence. -/
abbrev Hash := List Nat

/-- Byte-wise lexicographic order on hashes (Python string comparison). -/
def hashLe : Hash → Hash → Bool
  | [], _ => true
  | _ :: _, [] => false
  | a :: as, b :: bs =>
      if a < b then true else if b < a then false else hashLe as bs

/-- Strict byte-wise lexicographic order on hashes. -/
def hashLt : Hash → Hash → Bool
  | [], [] => false
  | [], _ :: _ => true
  | _ :: _, [] => false
  | a :: as, b :: bs =>
      if a < b then true else if b < a then false else hashLt as bs

theorem hashLe_refl (a : Hash) : hashLe a a = true := by
  induction a with
  | nil => rfl
  | cons x xs ih => simp [hashLe, ih]

theorem hashLe_total (a b : Hash) : hashLe a b = true ∨ hashLe b a = true := by
  induction a generalizing b with
  | nil => left; rfl
  | cons x xs ih =>
      cases b with
      | nil => right; rfl
      | cons y ys =>
          rcases Nat.lt_trichotomy x y with hxy | hxy | hxy
          · left; simp [hashLe, hxy]
          · subst hxy
            rcases ih ys with h | h
            · left; simp [hashLe, h]
            · right; simp [hashLe, h]
          · right; simp [hashLe, hxy]

theorem hashLe_trans (a b c : Hash) (hab : hashLe a b = true)
    (hbc : hashLe b c = true) : hashLe a c = true := by
  induction a generalizing b c with
  | nil => rfl
  | cons x xs ih =>
      cases b with
      | nil => simp [hashLe] at hab
      | cons y ys =>
          cases c with
          | nil => simp [hashLe] at hbc
          | cons z zs =>
              rcases Nat.lt_trichotomy x y with hxy | hxy | hxy
              · rcases Nat.lt_trichotomy y z with hyz | hyz | hyz
                · have hxz : x < z := Nat.lt_trans hxy hyz
                  simp [hashLe, hxz]
                · subst hyz; simp [hashLe, hxy]
                · simp [hashLe, Nat.lt_asymm hyz, hyz] at hbc
              · subst hxy
                simp only [hashLe, lt_self_iff_false, if_false] at hab
                rcases Nat.lt_trichotomy x z with hxz | hxz | hxz
                · simp [hashLe, hxz]
                · subst hxz
                  simp only [hashLe, lt_self_iff_false, if_false] at hbc ⊢
                  exact ih ys zs hab hbc
                · simp [hashLe, Nat.lt_asymm hxz, hxz] at hbc
              · simp [hashLe, Nat.lt_asymm hxy, hxy] at hab

theorem hashLe_antisymm (a b : Hash) (hab : hashLe a b = true)
    (hba : hashLe b a = true) : a = b := by
  induction a generalizing b with
  | nil =>
      cases b with
      | nil => rfl
      | cons y ys => simp [hashLe] at hba
  | cons x xs ih =>
      cases b with
      | nil => simp [hashLe] at hab
      | cons y ys =>
          rcases Nat.lt_trichotomy x y with hxy | hxy | hxy
          · simp [hashLe, Nat.lt_asymm hxy, hxy] at hba
          · subst hxy
            simp only [hashLe, lt_self_iff_false, if_false] at hab hba
            rw [ih ys hab hba]
          · simp [hashLe, Nat.lt_asymm hxy, hxy] at hab

theorem hashLt_of_le_of_ne (a b : Hash) (hab : hashLe a b = true)
    (hne : a ≠ b) : hashLt a b = true := by
  induction a generalizing b with
  | nil =>
      cases b with
      | nil => exact absurd rfl hne
      | cons y ys => rfl
  | cons x xs ih =>
      cases b with
      | nil => simp [hashLe] at hab
      | cons y ys =>
          rcases Nat.lt_trichotomy x y with hxy | hxy | hxy
          · simp [hashLt, hxy]
          · subst hxy
            simp only [hashLe, lt_self_iff_false, if_false] at hab
            simp only [hashLt, lt_self_iff_false, if_false]
            have hne2 : xs ≠ ys := fun hcon => hne (by rw [hcon])
            exact ih ys hab hne2
          · simp [hashLe, Nat.lt_asymm hxy, hxy] at hab

/-- Vote signal, from models.VoteSignals. -/
inductive Signal
  | funding
  | valid
  | delete
deriving DecidableEq, Repr

/-- Vote outcome, from models.VoteOutcomes. -/
inductive Outcome
  | yes
  | no
  | abstain
deriving DecidableEq, Repr

/-- An observable effect of one Sentinel cycle: a vote on a governance
object of a given type, a submission of a freshly authored object, or a
sentinel ping. -/
inductive Act
  | voteWatchdog (objectHash : Hash) (sig : Signal) (outc : Outcome)
  | voteProposal (objectHash : Hash) (sig : Signal) (outc : Outcome)
  | voteSuperblock (objectHash : Hash) (sig : Signal) (outc : Outcome)
  | submitWatchdog (createdAt : Int)
  | submitSuperblock (sbHash : Hash)
  | ping
deriving DecidableEq, Repr

/-- A Watchdog governance object: only an identity hash and a creation
time (models.Watchdog). -/
structure Watchdog where
  object_hash : Hash
  created_at : Int
deriving DecidableEq, Repr

/-- Modelled from the spec: Watchdog expiry (models.Watchdog.expired is
not among the given sources).  A Watchdog expires when
now - created_at > expiry_threshold. -/
def Watchdog.isExpired (now threshold : Int) (wd : Watchdog) : Bool :=
  decide (now - wd.created_at > threshold)

/-- Modelled from the spec: the expired watchdogs in the store
(models.Watchdog.expired). -/
def expiredWd (store : List Watchdog) (now threshold : Int) : List Watchdog :=
  store.filter (Watchdog.isExpired now threshold)

/-- Modelled from the spec: the active (non-expired) watchdogs in the
store (models.Watchdog.active). -/
def activeWd (store : List Watchdog) (now threshold : Int) : List Watchdog :=
  store.filter (fun wd => !(Watchdog.isExpired now threshold wd))

/-- Comparison key used by sorted(active_wd, key=lambda wd: wd.object_hash). -/
def wdLe (a b : Watchdog) : Bool := hashLe a.object_hash b.object_hash

/-- The sorting relation on watchdogs, as a decidable relation. -/
def wdR (a b : Watchdog) : Prop := wdLe a b = true

instance : DecidableRel wdR :=
  fun a b => inferInstanceAs (Decidable (wdLe a b = true))

instance : IsTotal Watchdog wdR :=
  ⟨fun a b => by
    rcases hashLe_total a.object_hash b.object_hash with h | h
    · exact Or.inl h
    · exact Or.inr h⟩

instance : IsTrans Watchdog wdR :=
  ⟨fun a b c hab hbc =>
    hashLe_trans a.object_hash b.object_hash c.object_hash hab hbc⟩

/-- Embedding of watchdog_check (src/bin/sentinel.py:28).  Votes
(Delete, Yes) on each expired watchdog; if no active watchdog exists,
submits a fresh one created now; otherwise sorts the active ones by
object_hash, votes (Valid, Yes) on the popped last (highest) element and
(Delete, Yes) on every remaining one. -/
def watchdog_check (store : List Watchdog) (now threshold : Int) : List Act :=
  let active_wd := activeWd store now threshold
  ((expiredWd store now threshold).map
      (fun wd => Act.voteWatchdog wd.object_hash Signal.delete Outcome.yes))
  ++ (if active_wd.length = 0 then
        [Act.submitWatchdog now]
      else
        let wd_list := List.insertionSort wdR active_wd
        match wd_list.getLast? with
        | none => []
        | some winner =>
            Act.voteWatchdog winner.object_hash Signal.valid Outcome.yes ::
            (wd_list.dropLast.map
              (fun wd => Act.voteWatchdog wd.object_hash Signal.delete Outcome.yes)))

theorem wdLe_trans (a b c : Watchdog) (hab : wdLe a b = true)
    (hbc : wdLe b c = true) : wdLe a c = true :=
  hashLe_trans a.object_hash b.object_hash c.object_hash hab hbc

theorem wdLe_total (a b : Watchdog) : (wdLe a b || wdLe b a) = true := by
  rcases hashLe_total a.object_hash b.object_hash with h | h <;>
    simp [wdLe, h]

/-- The last element of the sorted active list is a maximum: it belongs to
the original list, dominates every element, and every other element lands
in the dropped prefix. -/
theorem sorted_last_max (l : List Watchdog) (hl : l ≠ []) :
    ∃ w ys, (List.insertionSort wdR l).getLast? = some w ∧
      List.insertionSort wdR l = ys ++ [w] ∧ w ∈ l ∧
      (∀ x ∈ l, wdLe x w = true) ∧
      (∀ x ∈ l, x ≠ w → x ∈ ys) ∧ (∀ x ∈ ys, x ∈ l) := by
  have hperm := List.perm_insertionSort wdR l
  have hs : List.insertionSort wdR l ≠ [] := by
    intro hnil
    rw [hnil] at hperm
    exact hl hperm.symm.eq_nil
  set s := List.insertionSort wdR l with hsdef
  have hlast : s.getLast? = some (s.getLast hs) := List.getLast?_eq_getLast s hs
  set w := s.getLast hs with hwdef
  refine ⟨w, s.dropLast, hlast, (List.dropLast_append_getLast hs).symm, ?_, ?_, ?_, ?_⟩
  · exact hperm.mem_iff.mp (List.getLast_mem hs)
  · intro x hx
    have hxs : x ∈ s := hperm.mem_iff.mpr hx
    have hsorted : List.Pairwise wdR s := List.sorted_insertionSort wdR l
    have hsplit : s.dropLast ++ [w] = s := List.dropLast_append_getLast hs
    rw [← hsplit] at hsorted hxs
    rcases List.mem_append.mp hxs with hxd | hxw
    · exact (List.pairwise_append.mp hsorted).2.2 x hxd w (List.mem_singleton.mpr rfl)
    · have : x = w := List.mem_singleton.mp hxw
      rw [this]
      exact hashLe_refl w.object_hash
  · intro x hx hxw
    have hxs : x ∈ s := hperm.mem_iff.mpr hx
    have hsplit : s.dropLast ++ [w] = s := List.dropLast_append_getLast hs
    rw [← hsplit] at hxs
    rcases List.mem_append.mp hxs with hxd | hxw2
    · exact hxd
    · exact absurd (List.mem_singleton.mp hxw2) hxw
  · intro x hx
    have hxs : x ∈ s := List.dropLast_subset s hx
    exact hperm.mem_iff.mp hxs

/-- Unfolding of watchdog_check when at least one active watchdog exists. -/
theorem watchdog_check_eq_of_ne (store : List Watchdog) (now threshold : Int)
    (hne : activeWd store now threshold ≠ [])
    (w : Watchdog)
    (hlast : (List.insertionSort wdR (activeWd store now threshold)).getLast? = some w) :
    watchdog_check store now threshold
      = ((expiredWd store now threshold).map
          (fun wd => Act.voteWatchdog wd.object_hash Signal.delete Outcome.yes))
        ++ (Act.voteWatchdog w.object_hash Signal.valid Outcome.yes ::
            ((List.insertionSort wdR (activeWd store now threshold)).dropLast.map
              (fun wd => Act.voteWatchdog wd.object_hash Signal.delete Outcome.yes))) := by
  have hlen : ¬ (activeWd store now threshold).length = 0 := by
    simpa [List.length_eq_zero] using hne
  unfold watchdog_check
  simp only [hlen, if_false, hlast]

/-- Unfolding of watchdog_check when no active watchdog exists. -/
theorem watchdog_check_eq_of_empty (store : List Watchdog) (now threshold : Int)
    (hemp : activeWd store now threshold = []) :
    watchdog_check store now threshold
      = ((expiredWd store now threshold).map
          (fun wd => Act.voteWatchdog wd.object_hash Signal.delete Outcome.yes))
        ++ [Act.submitWatchdog now] := by
  unfold watchdog_check
  simp [hemp]

/-- Recognizer for a watchdog (Valid, Yes) vote. -/
def isValidYesWd (a : Act) : Bool :=
  match a with
  | Act.voteWatchdog _ Signal.valid Outcome.yes => true
  | _ => false

/-- Recognizer for a watchdog submission. -/
def isSubmitWd (a : Act) : Bool :=
  match a with
  | Act.submitWatchdog _ => true
  | _ => false

/-- Recognizer for any vote decision. -/
def isVote (a : Act) : Bool :=
  match a with
  | Act.voteWatchdog _ _ _ => true
  | Act.voteProposal _ _ _ => true
  | Act.voteSuperblock _ _ _ => true
  | _ => false

theorem filter_map_false {α β : Type} (p : β → Bool) (f : α → β) (l : List α)
    (h : ∀ x, p (f x) = false) : (l.map f).filter p = [] := by
  induction l with
  | nil => rfl
  | cons a as ih => simp [List.filter_cons, h, ih]

/-- The watchdog consensus property of one watchdog_check pass: every
expired watchdog receives (Delete, Yes); among the active ones a unique
winner with the strictly greatest object_hash receives the single
(Valid, Yes) decision and every other active watchdog receives
(Delete, Yes). -/
def WatchdogConsensus (store : List Watchdog) (now threshold : Int) : Prop :=
  (∀ wd ∈ store, Watchdog.isExpired now threshold wd = true →
      Act.voteWatchdog wd.object_hash Signal.delete Outcome.yes
        ∈ watchdog_check store now threshold) ∧
  ∃ w ∈ activeWd store now threshold,
    (∀ x ∈ activeWd store now threshold, x ≠ w →
        hashLt x.object_hash w.object_hash = true) ∧
    (watchdog_check store now threshold).filter isValidYesWd
        = [Act.voteWatchdog w.object_hash Signal.valid Outcome.yes] ∧
    (∀ x ∈ activeWd store now threshold, x ≠ w →
        Act.voteWatchdog x.object_hash Signal.delete Outcome.yes
          ∈ watchdog_check store now threshold)

/-- Claim C1: in a single watchdog_check pass, every expired watchdog
receives (Delete, Yes), and among the active watchdogs exactly one — the
one with maximum object_hash under the byte-wise ordering — receives
(Valid, Yes) while every other active watchdog receives (Delete, Yes). -/
theorem watchdog_check_consensus (store : List Watchdog) (now threshold : Int)
    (hnodup : (store.map Watchdog.object_hash).Nodup)
    (hne : activeWd store now threshold ≠ []) :
    WatchdogConsensus store now threshold := by
  obtain ⟨w, ys, hlast, hsplit, hwmem, hmax, hothers, hysmem⟩ :=
    sorted_last_max (activeWd store now threshold) hne
  have heq := watchdog_check_eq_of_ne store now threshold hne w hlast
  have hdrop : (List.insertionSort wdR (activeWd store now threshold)).dropLast = ys := by
    rw [hsplit, List.dropLast_concat]
  rw [hdrop] at heq
  have hf1 : ∀ wd : Watchdog,
      isValidYesWd (Act.voteWatchdog wd.object_hash Signal.delete Outcome.yes)
        = false := fun wd => rfl
  constructor
  · intro wd hmem hexp
    rw [heq]
    apply List.mem_append_left
    exact List.mem_map.mpr ⟨wd, List.mem_filter.mpr ⟨hmem, hexp⟩, rfl⟩
  · refine ⟨w, hwmem, ?_, ?_, ?_⟩
    · intro x hx hxw
      have hxle : wdLe x w = true := hmax x hx
      have hxstore : x ∈ store := (List.mem_filter.mp hx).1
      have hwstore : w ∈ store := (List.mem_filter.mp hwmem).1
      have hhne : x.object_hash ≠ w.object_hash := by
        intro hcon
        exact hxw (List.inj_on_of_nodup_map hnodup hxstore hwstore hcon)
      exact hashLt_of_le_of_ne _ _ hxle hhne
    · rw [heq, List.filter_append, filter_map_false _ _ _ hf1, List.nil_append,
          List.filter_cons_of_pos rfl, filter_map_false _ _ _ hf1]
    · intro x hx hxw
      rw [heq]
      apply List.mem_append_right
      apply List.mem_cons_of_mem
      exact List.mem_map.mpr ⟨x, hothers x hx hxw, rfl⟩

/-- Concrete store used in the watchdog witnesses: three active
watchdogs with hashes 0xaa, 0xbb, 0x11 and one expired watchdog. -/
def wdStoreEx : List Watchdog :=
  [⟨[170], 100⟩, ⟨[187], 100⟩, ⟨[17], 100⟩, ⟨[5], 0⟩]

/-- Witness for watchdog_check_consensus at a concrete store. -/
theorem watchdog_check_consensus_witness :
    ((wdStoreEx.map Watchdog.object_hash).Nodup
        ∧ activeWd wdStoreEx 150 60 ≠ []) ∧
      WatchdogConsensus wdStoreEx 150 60 :=
  ⟨⟨by decide, by decide⟩,
    watchdog_check_consensus wdStoreEx 150 60 (by decide) (by decide)⟩

/-- The empty-active-set behaviour of watchdog_check: the pass is exactly
the expiry deletions followed by a single submission of a watchdog
created now, and the single submission is the only submit action. -/
def WatchdogEmptyBranch (store : List Watchdog) (now threshold : Int) : Prop :=
  watchdog_check store now threshold
      = ((expiredWd store now threshold).map
          (fun wd => Act.voteWatchdog wd.object_hash Signal.delete Outcome.yes))
        ++ [Act.submitWatchdog now] ∧
  (watchdog_check store now threshold).filter isSubmitWd
      = [Act.submitWatchdog now]

/-- Claim C5: when the active watchdog set is empty, watchdog_check
submits exactly one new Watchdog created at the current time and emits no
vote decision in that branch. -/
theorem watchdog_check_empty_submits (store : List Watchdog)
    (now threshold : Int)
    (hemp : activeWd store now threshold = []) :
    WatchdogEmptyBranch store now threshold := by
  have heq := watchdog_check_eq_of_empty store now threshold hemp
  have hf : ∀ wd : Watchdog,
      isSubmitWd (Act.voteWatchdog wd.object_hash Signal.delete Outcome.yes)
        = false := fun wd => rfl
  refine ⟨heq, ?_⟩
  rw [heq, List.filter_append, filter_map_false _ _ _ hf, List.nil_append]
  rfl

/-- Witness for watchdog_check_empty_submits at a concrete store. -/
theorem watchdog_check_empty_submits_witness :
    activeWd [(⟨[5], 0⟩ : Watchdog)] 150 60 = [] ∧
      WatchdogEmptyBranch [(⟨[5], 0⟩ : Watchdog)] 150 60 :=
  ⟨by decide, watchdog_check_empty_submits [⟨[5], 0⟩] 150 60 (by decide)⟩

/-- A Superblock governance object record in the local Store
(models.Superblock): an identity hash, a content hash of the payment
schedule, and the block height it pays at. -/
structure Superblock where
  object_hash : Hash
  sb_hash : Hash
  event_block_height : Nat
deriving DecidableEq, Repr

/-- A vote already cast by this voter, as recorded in the local votes
table: object hash, signal and outcome. -/
abbrev VoteRec := Hash × Signal × Outcome

/-- Modelled from the spec: the cheap lookup "has this voter already
voted signal S on object O" (GovernanceObject.voted_on is not among the
given sources). -/
def voted_on (votes : List VoteRec) (h : Hash) (sig : Signal) : Bool :=
  votes.any (fun v => decide (v.1 = h ∧ v.2.1 = sig))

/-- Modelled from the spec: Superblock.is_voted_funding — has this voter
cast a funding-Yes vote for any Superblock at the given event block
height. -/
def is_voted_funding (store : List Superblock) (votes : List VoteRec)
    (ebh : Nat) : Bool :=
  store.any (fun sb => decide (sb.event_block_height = ebh) &&
    votes.any (fun v => decide (v.1 = sb.object_hash
      ∧ v.2.1 = Signal.funding ∧ v.2.2 = Outcome.yes)))

/-- Modelled from the spec: Superblock.at_height — the stored Superblocks
at a given event block height. -/
def at_height (store : List Superblock) (ebh : Nat) : List Superblock :=
  store.filter (fun sb => decide (sb.event_block_height = ebh))

/-- Comparison key for find_highest_deterministic. -/
def sbLe (a b : Superblock) : Bool := hashLe a.object_hash b.object_hash

/-- The sorting relation on superblocks, as a decidable relation. -/
def sbR (a b : Superblock) : Prop := sbLe a b = true

instance : DecidableRel sbR :=
  fun a b => inferInstanceAs (Decidable (sbLe a b = true))

/-- Modelled from the spec: Superblock.find_highest_deterministic — among
the stored records whose sb_hash matches the locally computed candidate
hash, the one with the highest object_hash, if any. -/
def find_highest_deterministic (store : List Superblock) (sbh : Hash) :
    Option Superblock :=
  (List.insertionSort sbR (store.filter (fun sb => decide (sb.sb_hash = sbh)))).getLast?

/-- Daemon-reported chain state consumed by
attempt_superblock_creation. -/
structure SbEnv where
  is_masternode : Bool
  next_superblock_height : Nat
  is_govobj_maturity_phase : Bool
  we_are_the_winner : Bool
deriving DecidableEq, Repr

/-- Embedding of attempt_superblock_creation (src/bin/sentinel.py:78).
The candidate argument is the sb_hash of the locally built candidate
Superblock (None when sucrlib.create_superblock yields none).  Votes cast
during the pass are visible to the later voted_on checks of the same
pass, hence the extended vote list in the dedup loop. -/
def attempt_superblock_creation (env : SbEnv) (store : List Superblock)
    (votes : List VoteRec) (candidate : Option Hash) : List Act :=
  if !env.is_masternode then []
  else
    let event_block_height := env.next_superblock_height
    if is_voted_funding store votes event_block_height then
      (at_height store event_block_height).filterMap (fun sb =>
        if !(voted_on votes sb.object_hash Signal.funding)
        then some (Act.voteSuperblock sb.object_hash Signal.funding Outcome.no)
        else none)
    else if !env.is_govobj_maturity_phase then []
    else
      match candidate with
      | none => []
      | some candHash =>
          match find_highest_deterministic store candHash with
          | some dbrec =>
              let votes1 := (dbrec.object_hash, Signal.funding, Outcome.yes) :: votes
              Act.voteSuperblock dbrec.object_hash Signal.funding Outcome.yes ::
              ((store.filter (fun sb => decide (sb.sb_hash = candHash))).filterMap
                (fun sb =>
                  if !(voted_on votes1 sb.object_hash Signal.funding)
                  then some (Act.voteSuperblock sb.object_hash Signal.delete Outcome.yes)
                  else none))
          | none =>
              if env.we_are_the_winner then [Act.submitSuperblock candHash] else []

theorem find_highest_some (store : List Superblock) (sbh : Hash)
    (dbrec : Superblock)
    (h : find_highest_deterministic store sbh = some dbrec) :
    dbrec ∈ store ∧ dbrec.sb_hash = sbh := by
  unfold find_highest_deterministic at h
  obtain ⟨ys, hys⟩ := List.getLast?_eq_some_iff.mp h
  have hmem : dbrec ∈ List.insertionSort sbR (store.filter (fun sb => decide (sb.sb_hash = sbh))) := by
    rw [hys]
    exact List.mem_append_right ys (List.mem_singleton.mpr rfl)
  have hmem2 := (List.perm_insertionSort sbR _).mem_iff.mp hmem
  have := List.mem_filter.mp hmem2
  exact ⟨this.1, by simpa using this.2⟩

theorem find_highest_none (store : List Superblock) (sbh : Hash)
    (h : ∀ sb ∈ store, sb.sb_hash ≠ sbh) :
    find_highest_deterministic store sbh = none := by
  unfold find_highest_deterministic
  have hfil : store.filter (fun sb => decide (sb.sb_hash = sbh)) = [] := by
    rw [List.filter_eq_nil_iff]
    intro sb hsb
    simpa using h sb hsb
  rw [hfil]
  rfl

/-- Recognizer for a superblock (Funding, Yes) vote. -/
def isFundingYesSb (a : Act) : Bool :=
  match a with
  | Act.voteSuperblock _ Signal.funding Outcome.yes => true
  | _ => false

/-- Recognizer for a superblock submission. -/
def isSubmitSb (a : Act) : Bool :=
  match a with
  | Act.submitSuperblock _ => true
  | _ => false

theorem filter_filterMap_false {α β : Type} (p : β → Bool) (f : α → Option β)
    (l : List α) (h : ∀ x y, f x = some y → p y = false) :
    (l.filterMap f).filter p = [] := by
  induction l with
  | nil => rfl
  | cons a as ih =>
      cases hfa : f a with
      | none => simp [List.filterMap_cons, hfa, ih]
      | some b => simp [List.filterMap_cons, hfa, List.filter_cons, h a b hfa, ih]

/-- Unfolding of attempt_superblock_creation in the deterministic-match
branch. -/
theorem attempt_eq_dedup (env : SbEnv) (store : List Superblock)
    (votes : List VoteRec) (candHash : Hash) (dbrec : Superblock)
    (hmn : env.is_masternode = true)
    (hnv : is_voted_funding store votes env.next_superblock_height = false)
    (hmat : env.is_govobj_maturity_phase = true)
    (hfind : find_highest_deterministic store candHash = some dbrec) :
    attempt_superblock_creation env store votes (some candHash)
      = Act.voteSuperblock dbrec.object_hash Signal.funding Outcome.yes ::
        ((store.filter (fun sb => decide (sb.sb_hash = candHash))).filterMap
          (fun sb =>
            if !(voted_on ((dbrec.object_hash, Signal.funding, Outcome.yes) :: votes)
                  sb.object_hash Signal.funding)
            then some (Act.voteSuperblock sb.object_hash Signal.delete Outcome.yes)
            else none)) := by
  unfold attempt_superblock_creation
  simp [hmn, hnv, hmat, hfind]

/-- The superblock deduplication property: on a deterministic match,
exactly one stored record with the candidate's sb_hash receives the
single (Funding, Yes) decision, every other record with that sb_hash not
yet voted on the funding signal receives (Delete, Yes), and nothing is
submitted. -/
def SuperblockDedup (env : SbEnv) (store : List Superblock)
    (votes : List VoteRec) (candHash : Hash) (dbrec : Superblock) : Prop :=
  dbrec ∈ store ∧ dbrec.sb_hash = candHash ∧
  (attempt_superblock_creation env store votes (some candHash)).filter isFundingYesSb
      = [Act.voteSuperblock dbrec.object_hash Signal.funding Outcome.yes] ∧
  (∀ sb ∈ store, sb.sb_hash = candHash → sb.object_hash ≠ dbrec.object_hash →
      voted_on votes sb.object_hash Signal.funding = false →
      Act.voteSuperblock sb.object_hash Signal.delete Outcome.yes
        ∈ attempt_superblock_creation env store votes (some candHash)) ∧
  (∀ a ∈ attempt_superblock_creation env store votes (some candHash),
      isSubmitSb a = false)

/-- Claim C2: when resolution finds a stored Superblock with the
candidate's sb_hash, exactly one such record receives (Funding, Yes),
every other record sharing that sb_hash not yet voted on the funding
signal receives (Delete, Yes), and resolution stops without
submitting. -/
theorem attempt_superblock_dedup (env : SbEnv) (store : List Superblock)
    (votes : List VoteRec) (candHash : Hash) (dbrec : Superblock)
    (hmn : env.is_masternode = true)
    (hnv : is_voted_funding store votes env.next_superblock_height = false)
    (hmat : env.is_govobj_maturity_phase = true)
    (hfind : find_highest_deterministic store candHash = some dbrec) :
    SuperblockDedup env store votes candHash dbrec := by
  have heq := attempt_eq_dedup env store votes candHash dbrec hmn hnv hmat hfind
  obtain ⟨hdbmem, hdbhash⟩ := find_highest_some store candHash dbrec hfind
  have hdel : ∀ (sb : Superblock) (y : Act),
      (if !(voted_on ((dbrec.object_hash, Signal.funding, Outcome.yes) :: votes)
              sb.object_hash Signal.funding)
       then some (Act.voteSuperblock sb.object_hash Signal.delete Outcome.yes)
       else none) = some y →
      y = Act.voteSuperblock sb.object_hash Signal.delete Outcome.yes := by
    intro sb y hy
    by_cases hc : (voted_on ((dbrec.object_hash, Signal.funding, Outcome.yes) :: votes)
        sb.object_hash Signal.funding) = true
    · simp [hc] at hy
    · simp only [Bool.not_eq_true] at hc
      simp [hc] at hy
      exact hy.symm
  refine ⟨hdbmem, hdbhash, ?_, ?_, ?_⟩
  · rw [heq, List.filter_cons_of_pos rfl]
    rw [filter_filterMap_false]
    intro x y hy
    rw [hdel x y hy]
    rfl
  · intro sb hsb hsbh hsbne hsbnv
    rw [heq]
    apply List.mem_cons_of_mem
    apply List.mem_filterMap.mpr
    refine ⟨sb, List.mem_filter.mpr ⟨hsb, by simpa using hsbh⟩, ?_⟩
    have hv1 : voted_on ((dbrec.object_hash, Signal.funding, Outcome.yes) :: votes)
        sb.object_hash Signal.funding = false := by
      unfold voted_on at hsbnv ⊢
      simp only [List.any_cons, Bool.or_eq_false_iff]
      constructor
      · simp
        intro hcon
        exact absurd hcon.symm hsbne
      · exact hsbnv
    simp [hv1]
  · intro a ha
    rw [heq] at ha
    rcases List.mem_cons.mp ha with hh | ht
    · rw [hh]; rfl
    · obtain ⟨sb, _, hsb⟩ := List.mem_filterMap.mp ht
      rw [hdel sb a hsb]
      rfl

/-- Concrete daemon state used in the superblock witnesses. -/
def sbEnvEx : SbEnv := ⟨true, 100, true, false⟩

/-- Concrete store used in the superblock dedup witness: two Superblocks
at height 100 sharing sb_hash 7, neither voted. -/
def sbStoreEx : List Superblock := [⟨[1], [7], 100⟩, ⟨[2], [7], 100⟩]

/-- Witness for attempt_superblock_dedup at a concrete store. -/
theorem attempt_superblock_dedup_witness :
    (sbEnvEx.is_masternode = true ∧
     is_voted_funding sbStoreEx [] sbEnvEx.next_superblock_height = false ∧
     sbEnvEx.is_govobj_maturity_phase = true ∧
     find_highest_deterministic sbStoreEx [7] = some ⟨[2], [7], 100⟩) ∧
    SuperblockDedup sbEnvEx sbStoreEx [] [7] ⟨[2], [7], 100⟩ :=
  ⟨⟨rfl, by decide, rfl, by decide⟩,
    attempt_superblock_dedup sbEnvEx sbStoreEx [] [7] ⟨[2], [7], 100⟩
      rfl (by decide) rfl (by decide)⟩

/-- Unfolding of attempt_superblock_creation when this voter has already
cast a funding-Yes vote at the next superblock height. -/
theorem attempt_eq_already_voted (env : SbEnv) (store : List Superblock)
    (votes : List VoteRec) (candidate : Option Hash)
    (hmn : env.is_masternode = true)
    (hv : is_voted_funding store votes env.next_superblock_height = true) :
    attempt_superblock_creation env store votes candidate
      = (at_height store env.next_superblock_height).filterMap (fun sb =>
          if !(voted_on votes sb.object_hash Signal.funding)
          then some (Act.voteSuperblock sb.object_hash Signal.funding Outcome.no)
          else none) := by
  unfold attempt_superblock_creation
  simp [hmn, hv]

/-- The already-voted property: the pass emits a (Funding, No) decision
for every Superblock at the next superblock height not yet voted on the
funding signal, emits nothing else, and in particular submits nothing. -/
def SuperblockAlreadyVoted (env : SbEnv) (store : List Superblock)
    (votes : List VoteRec) (candidate : Option Hash) : Prop :=
  (∀ sb ∈ store, sb.event_block_height = env.next_superblock_height →
      voted_on votes sb.object_hash Signal.funding = false →
      Act.voteSuperblock sb.object_hash Signal.funding Outcome.no
        ∈ attempt_superblock_creation env store votes candidate) ∧
  (∀ a ∈ attempt_superblock_creation env store votes candidate,
      ∃ sb ∈ store, sb.event_block_height = env.next_superblock_height ∧
        voted_on votes sb.object_hash Signal.funding = false ∧
        a = Act.voteSuperblock sb.object_hash Signal.funding Outcome.no)

/-- Claim C3: once a funding-Yes vote exists for the next superblock
height, the resolver only emits (Funding, No) decisions for not-yet-voted
Superblocks at that height and never submits a candidate. -/
theorem attempt_superblock_already_voted (env : SbEnv)
    (store : List Superblock) (votes : List VoteRec)
    (candidate : Option Hash)
    (hmn : env.is_masternode = true)
    (hv : is_voted_funding store votes env.next_superblock_height = true) :
    SuperblockAlreadyVoted env store votes candidate := by
  have heq := attempt_eq_already_voted env store votes candidate hmn hv
  constructor
  · intro sb hsb hh hnv
    rw [heq]
    apply List.mem_filterMap.mpr
    refine ⟨sb, List.mem_filter.mpr ⟨hsb, by simpa using hh⟩, ?_⟩
    simp [hnv]
  · intro a ha
    rw [heq] at ha
    obtain ⟨sb, hsbmem, hsba⟩ := List.mem_filterMap.mp ha
    have hsb2 := List.mem_filter.mp hsbmem
    by_cases hc : voted_on votes sb.object_hash Signal.funding = true
    · simp [hc] at hsba
    · simp only [Bool.not_eq_true] at hc
      simp [hc] at hsba
      exact ⟨sb, hsb2.1, by simpa using hsb2.2, hc, hsba.symm⟩

/-- Witness for attempt_superblock_already_voted at a concrete store:
a funding-Yes vote for the Superblock with hash 1 already exists. -/
theorem attempt_superblock_already_voted_witness :
    (sbEnvEx.is_masternode = true ∧
     is_voted_funding sbStoreEx [([1], Signal.funding, Outcome.yes)]
        sbEnvEx.next_superblock_height = true) ∧
    SuperblockAlreadyVoted sbEnvEx sbStoreEx
      [([1], Signal.funding, Outcome.yes)] (some [7]) :=
  ⟨⟨rfl, by decide⟩,
    attempt_superblock_already_voted sbEnvEx sbStoreEx
      [([1], Signal.funding, Outcome.yes)] (some [7]) rfl (by decide)⟩

/-- Claim C4: with no stored record matching the candidate's sb_hash and
this voter elected leader, the pass is exactly one submission of the
candidate — no vote of any kind, in particular no funding-Yes on the
just-submitted object. -/
theorem attempt_superblock_submits (env : SbEnv) (store : List Superblock)
    (votes : List VoteRec) (candHash : Hash)
    (hmn : env.is_masternode = true)
    (hnv : is_voted_funding store votes env.next_superblock_height = false)
    (hmat : env.is_govobj_maturity_phase = true)
    (hnone : ∀ sb ∈ store, sb.sb_hash ≠ candHash)
    (hwin : env.we_are_the_winner = true) :
    attempt_superblock_creation env store votes (some candHash)
      = [Act.submitSuperblock candHash] := by
  have hfind := find_highest_none store candHash hnone
  unfold attempt_superblock_creation
  simp [hmn, hnv, hmat, hfind, hwin]

/-- Concrete daemon state where this voter is the elected leader. -/
def sbEnvWinEx : SbEnv := ⟨true, 100, true, true⟩

/-- Witness for attempt_superblock_submits at a concrete store. -/
theorem attempt_superblock_submits_witness :
    (sbEnvWinEx.is_masternode = true ∧
     is_voted_funding sbStoreEx [] sbEnvWinEx.next_superblock_height = false ∧
     sbEnvWinEx.is_govobj_maturity_phase = true ∧
     (∀ sb ∈ sbStoreEx, sb.sb_hash ≠ [9]) ∧
     sbEnvWinEx.we_are_the_winner = true) ∧
    attempt_superblock_creation sbEnvWinEx sbStoreEx [] (some [9])
      = [Act.submitSuperblock [9]] :=
  ⟨⟨rfl, by decide, rfl, by decide, rfl⟩,
    attempt_superblock_submits sbEnvWinEx sbStoreEx [] [9]
      rfl (by decide) rfl (by decide) rfl⟩

/-- A Proposal governance object record (models.Proposal). -/
structure Proposal where
  object_hash : Hash
  start_epoch : Int
  end_epoch : Int
  requested_amount : Int
deriving DecidableEq, Repr

/-- Modelled from the spec: Proposal expiry (models.Proposal.expired is
not among the given sources).  A Proposal has expired when its end_epoch
lies before now minus the superblock cycle length. -/
def Proposal.isExpired (now cycleLength : Int) (p : Proposal) : Bool :=
  decide (p.end_epoch < now - cycleLength)

/-- Embedding of prune_expired_proposals (src/bin/sentinel.py:63): vote
(Delete, Yes) on every expired proposal. -/
def prune_expired_proposals (props : List Proposal) (now cycleLength : Int) :
    List Act :=
  (props.filter (Proposal.isExpired now cycleLength)).map
    (fun p => Act.voteProposal p.object_hash Signal.delete Outcome.yes)

/-- The proposal pruning property: every expired proposal receives
(Delete, Yes), and a proposal still inside its validity window receives
no decision at all from this pass. -/
def ProposalPruning (props : List Proposal) (now cycleLength : Int) : Prop :=
  (∀ p ∈ props, Proposal.isExpired now cycleLength p = true →
      Act.voteProposal p.object_hash Signal.delete Outcome.yes
        ∈ prune_expired_proposals props now cycleLength) ∧
  (∀ p ∈ props, Proposal.isExpired now cycleLength p = false →
      ∀ sig outc, Act.voteProposal p.object_hash sig outc
        ∉ prune_expired_proposals props now cycleLength)

/-- Claim C6: the pruning pass decides (Delete, Yes) exactly for the
proposals whose validity window has ended, and leaves in-window proposals
untouched. -/
theorem prune_expired_proposals_correct (props : List Proposal)
    (now cycleLength : Int)
    (hnodup : (props.map Proposal.object_hash).Nodup) :
    ProposalPruning props now cycleLength := by
  constructor
  · intro p hp hexp
    apply List.mem_map.mpr
    exact ⟨p, List.mem_filter.mpr ⟨hp, hexp⟩, rfl⟩
  · intro p hp hin sig outc hmem
    obtain ⟨q, hq, hqa⟩ := List.mem_map.mp hmem
    have hq2 := List.mem_filter.mp hq
    have hqp : q.object_hash = p.object_hash := by
      injection hqa
    have : q = p := List.inj_on_of_nodup_map hnodup hq2.1 hp hqp
    rw [this] at hq2
    rw [hq2.2] at hin
    exact Bool.true_eq_false.mp hin

/-- Witness for prune_expired_proposals_correct at a concrete store: one
proposal whose window ended, one still inside its window. -/
theorem prune_expired_proposals_witness :
    (([(⟨[1], 0, 10, 5⟩ : Proposal), ⟨[2], 0, 90, 5⟩].map
        Proposal.object_hash).Nodup) ∧
      ProposalPruning [⟨[1], 0, 10, 5⟩, ⟨[2], 0, 90, 5⟩] 100 20 :=
  ⟨by decide,
    prune_expired_proposals_correct [⟨[1], 0, 10, 5⟩, ⟨[2], 0, 90, 5⟩]
      100 20 (by decide)⟩

/-- Modelled from the spec: the Transient TTL key/value store backing
the Run-Lock (lib Transient is not among the given sources).  Each entry
is (key, value, expires_at); an entry past its TTL is treated as
absent. -/
structure TransientStore where
  entries : List (String × Int × Int)
deriving DecidableEq, Repr

/-- Modelled from the spec: Transient.get — the value of an unexpired
entry under the key, if any. -/
def TransientStore.get (t : TransientStore) (key : String) (now : Int) :
    Option Int :=
  match t.entries.find? (fun e => decide (e.1 = key) && decide (now < e.2.2)) with
  | some e => some e.2.1
  | none => none

/-- Modelled from the spec: Transient.set — create the entry with a TTL,
superseding any previous entry under the key. -/
def TransientStore.set (t : TransientStore) (key : String)
    (v now ttl : Int) : TransientStore :=
  ⟨(key, v, now + ttl) :: t.entries.filter (fun e => decide (e.1 ≠ key))⟩

/-- Modelled from the spec: Transient.delete — remove the entry under
the key. -/
def TransientStore.delete (t : TransientStore) (key : String) :
    TransientStore :=
  ⟨t.entries.filter (fun e => decide (e.1 ≠ key))⟩

theorem TransientStore.get_delete (t : TransientStore) (key : String)
    (now : Int) : (t.delete key).get key now = none := by
  unfold TransientStore.get TransientStore.delete
  have hfind : (t.entries.filter (fun e => decide (e.1 ≠ key))).find?
      (fun e => decide (e.1 = key) && decide (now < e.2.2)) = none := by
    rw [List.find?_eq_none]
    intro x hx
    have hx2 := (List.mem_filter.mp hx).2
    simp only [decide_eq_true_eq] at hx2
    simp [hx2]
  rw [hfind]

theorem TransientStore.delete_set (t : TransientStore) (key : String)
    (v now ttl : Int) : (t.set key v now ttl).delete key = t.delete key := by
  unfold TransientStore.set TransientStore.delete
  simp [List.filter_cons, List.filter_filter]

/-- Daemon-reported chain state, Store contents and option flags
consumed by one cycle of main. -/
structure Env where
  port_open : Bool
  is_synced : Bool
  is_masternode : Bool
  has_sentinel_ping : Bool
  next_superblock_height : Nat
  is_govobj_maturity_phase : Bool
  we_are_the_winner : Bool
  now : Int
  expiry_threshold : Int
  superblockcycle : Int
  nextRunTime : Int
  watchdogs : List Watchdog
  proposals : List Proposal
  superblocks : List Superblock
  votes : List VoteRec
  candidate : Option Hash
  schedule : Option Int
  bypass : Bool
deriving DecidableEq, Repr

/-- Modelled from the spec: Scheduler.is_run_time — true within the
permitted window tracked by the persisted next-window marker; with no
marker there is nothing to wait for and the check passes. -/
def scheduler_is_run_time (schedule : Option Int) (now : Int) : Bool :=
  match schedule with
  | none => true
  | some t => decide (t ≤ now)

/-- How main reported one invocation: which gate stopped it, or that the
cycle body ran. -/
inductive MainOutcome
  | noConnect
  | notSynced
  | notMasternode
  | notRunTime
  | ran
deriving DecidableEq, Repr

/-- Result of one invocation of main: the gate outcome, the emitted
actions and the persisted next-window marker. -/
structure MainResult where
  outcome : MainOutcome
  actions : List Act
  schedule : Option Int
deriving DecidableEq, Repr

/-- The daemon fields of the environment consumed by
attempt_superblock_creation. -/
def sbEnvOf (env : Env) : SbEnv :=
  ⟨env.is_masternode, env.next_superblock_height,
    env.is_govobj_maturity_phase, env.we_are_the_winner⟩

/-- Embedding of main (src/bin/sentinel.py:159): connectivity, sync and
masternode gates, the bypass-aware scheduler gate, then the cycle body —
ping or watchdog check, proposal pruning, superblock resolution — and
the rescheduling of the next run. -/
def main_run (env : Env) : MainResult :=
  if !env.port_open then ⟨MainOutcome.noConnect, [], env.schedule⟩
  else if !env.is_synced then ⟨MainOutcome.notSynced, [], env.schedule⟩
  else if !env.is_masternode then ⟨MainOutcome.notMasternode, [], env.schedule⟩
  else
    let sched1 := if env.bypass then none else env.schedule
    if !(scheduler_is_run_time sched1 env.now) then
      ⟨MainOutcome.notRunTime, [], sched1⟩
    else
      let acts :=
        (if env.has_sentinel_ping then [Act.ping]
         else watchdog_check env.watchdogs env.now env.expiry_threshold)
        ++ prune_expired_proposals env.proposals env.now env.superblockcycle
        ++ attempt_superblock_creation (sbEnvOf env) env.superblocks
            env.votes env.candidate
      ⟨MainOutcome.ran, acts, some env.nextRunTime⟩

/-- Result of one whole process run (entrypoint): exit code, final
Transient store, and the main result when the lock was acquired. -/
structure EntryResult where
  exitCode : Nat
  transient : TransientStore
  mainResult : Option MainResult
deriving DecidableEq, Repr

/-- The run-lock key derived from the configuration identity
(src/bin/sentinel.py:251). -/
def mutexKey (conf : String) : String := "SENTINEL_RUNNING_" ++ conf

/-- Embedding of entrypoint (src/bin/sentinel.py:248).  The atexit
cleanup handler for the mutex key is registered before the lock check,
so the already-running abort path also runs that handler when the
interpreter exits: the existing lock entry is deleted in both
branches. -/
def entrypoint_run (conf : String) (env : Env) (t0 : TransientStore) :
    EntryResult :=
  let key := mutexKey conf
  match t0.get key env.now with
  | some _ => ⟨1, t0.delete key, none⟩
  | none =>
      let t1 := t0.set key env.now env.now 90
      let r := main_run env
      ⟨0, (t1.delete key).delete key, some r⟩

/-- Embedding of signal_handler (src/bin/sentinel.py:227) together with
the interpreter exit it triggers during a locked run: the handler
deletes the literal SENTINEL_RUNNING key and exits with code 1, upon
which the atexit cleanup handler registered by entrypoint deletes the
configuration-keyed lock entry. -/
def signal_interrupt_run (conf : String) (t : TransientStore) :
    EntryResult :=
  let t1 := t.delete "SENTINEL_RUNNING"
  ⟨1, t1.delete (mutexKey conf), none⟩

/-- A concrete environment for the process-level theorems: all gates
open, sentinel ping supported, empty Store. -/
def envPingEx : Env :=
  ⟨true, true, true, true, 100, true, false, 1000, 60, 20, 2000,
    [], [], [], [], none, none, false⟩

/-- A Transient store holding an unexpired run lock created by another
instance pointing at the same configuration. -/
def lockT0 : TransientStore :=
  ⟨[("SENTINEL_RUNNING_sucr.conf", 50, 2000)]⟩

/-- Claim C7 (against the code): at startup with an unexpired lock entry
for the same configuration, the process aborts with exit code 1 without
running main — but the existing lock entry is deleted rather than left
unchanged, because entrypoint registers the atexit cleanup handler for
the mutex key before performing the lock check. -/
theorem entrypoint_abort_deletes_existing_lock :
    TransientStore.get lockT0 (mutexKey "sucr.conf") envPingEx.now = some 50 ∧
    (entrypoint_run "sucr.conf" envPingEx lockT0).exitCode = 1 ∧
    (entrypoint_run "sucr.conf" envPingEx lockT0).mainResult = none ∧
    (entrypoint_run "sucr.conf" envPingEx lockT0).transient.entries = [] := by
  refine ⟨?_, ?_, ?_, ?_⟩ <;> decide

/-- Claim C8: on an external interrupt during a locked run, the run-lock
entry keyed by the configuration identity is deleted by the interrupt
handling path and the process terminates with a non-zero exit code. -/
theorem signal_interrupt_releases_lock (conf : String)
    (t : TransientStore) (now : Int) :
    (signal_interrupt_run conf t).exitCode ≠ 0 ∧
    (signal_interrupt_run conf t).transient.get (mutexKey conf) now = none := by
  constructor
  · intro hcon
    exact Nat.one_ne_zero hcon
  · exact TransientStore.get_delete _ (mutexKey conf) now

/-- The forced-run property: the cycle body runs despite any scheduler
window, and the entrypoint lock check depends only on the configuration
key, the store and the clock — on nothing else in the environment, in
particular not on the bypass flag. -/
def BypassForcedRun (conf : String) (env : Env) (t0 : TransientStore) : Prop :=
  (main_run env).outcome = MainOutcome.ran ∧
  (∀ env2 : Env, env2.now = env.now →
    (entrypoint_run conf env2 t0).exitCode
        = (entrypoint_run conf env t0).exitCode ∧
    (entrypoint_run conf env2 t0).transient
        = (entrypoint_run conf env t0).transient ∧
    (entrypoint_run conf env2 t0).mainResult.isSome
        = (entrypoint_run conf env t0).mainResult.isSome)

/-- Claim C9: with the bypass flag set, the scheduler window check can
never skip the run once the daemon gates pass, while the run-lock check
is performed exactly as without the flag. -/
theorem bypass_forces_run (conf : String) (env : Env) (t0 : TransientStore)
    (hb : env.bypass = true) (hp : env.port_open = true)
    (hs : env.is_synced = true) (hm : env.is_masternode = true) :
    BypassForcedRun conf env t0 := by
  constructor
  · unfold main_run
    simp [hb, hp, hs, hm, scheduler_is_run_time]
  · intro env2 hnow
    unfold entrypoint_run
    rw [hnow]
    cases h : t0.get (mutexKey conf) env.now with
    | some v => simp [h]
    | none => simp [h]

/-- Concrete environment with the bypass flag set and a future scheduler
window that would otherwise block the run. -/
def envBypassEx : Env :=
  ⟨true, true, true, true, 100, true, false, 1000, 60, 20, 2000,
    [], [], [], [], none, some 9999, true⟩

/-- Witness for bypass_forces_run at a concrete environment. -/
theorem bypass_forces_run_witness :
    (envBypassEx.bypass = true ∧ envBypassEx.port_open = true ∧
     envBypassEx.is_synced = true ∧ envBypassEx.is_masternode = true) ∧
    BypassForcedRun "sucr.conf" envBypassEx ⟨[]⟩ :=
  ⟨⟨rfl, rfl, rfl, rfl⟩,
    bypass_forces_run "sucr.conf" envBypassEx ⟨[]⟩ rfl rfl rfl rfl⟩

/-- Recognizer for watchdog-consensus actions: a watchdog vote or a
watchdog submission. -/
def isWdAct (a : Act) : Bool :=
  match a with
  | Act.voteWatchdog _ _ _ => true
  | Act.submitWatchdog _ => true
  | _ => false

theorem mem_ite_filterMap {α : Type} (g : α → Act) (c : α → Bool)
    (l : List α) (a : Act)
    (ha : a ∈ l.filterMap (fun x => if c x then some (g x) else none)) :
    ∃ x ∈ l, a = g x := by
  obtain ⟨x, hx, hxa⟩ := List.mem_filterMap.mp ha
  by_cases hc : c x = true
  · simp only [hc, if_true] at hxa
    exact ⟨x, hx, (Option.some_inj.mp hxa).symm⟩
  · simp only [Bool.not_eq_true] at hc
    simp [hc] at hxa

theorem prune_no_wd_no_ping (props : List Proposal) (now cyc : Int) :
    ∀ a ∈ prune_expired_proposals props now cyc,
      isWdAct a = false ∧ a ≠ Act.ping := by
  intro a ha
  obtain ⟨p, _, hpa⟩ := List.mem_map.mp ha
  rw [← hpa]
  exact ⟨rfl, by simp⟩

theorem attempt_no_wd_no_ping (env : SbEnv) (store : List Superblock)
    (votes : List VoteRec) (cand : Option Hash) :
    ∀ a ∈ attempt_superblock_creation env store votes cand,
      isWdAct a = false ∧ a ≠ Act.ping := by
  intro a ha
  unfold attempt_superblock_creation at ha
  cases hmn : env.is_masternode with
  | false => simp [hmn] at ha
  | true =>
      simp only [hmn, Bool.not_true, Bool.false_eq_true, if_false] at ha
      cases hv : is_voted_funding store votes env.next_superblock_height with
      | true =>
          simp only [hv, if_true] at ha
          obtain ⟨sb, _, hsba⟩ := mem_ite_filterMap _ _ _ _ ha
          rw [hsba]
          exact ⟨rfl, by simp⟩
      | false =>
          simp only [hv, Bool.false_eq_true, if_false] at ha
          cases hmat : env.is_govobj_maturity_phase with
          | false => simp [hmat] at ha
          | true =>
              simp only [hmat, Bool.not_true, Bool.false_eq_true, if_false] at ha
              cases cand with
              | none => simp at ha
              | some candHash =>
                  cases hfind : find_highest_deterministic store candHash with
                  | some dbrec =>
                      simp only [hfind] at ha
                      rcases List.mem_cons.mp ha with hh | ht
                      · rw [hh]
                        exact ⟨rfl, by simp⟩
                      · obtain ⟨sb, _, hsba⟩ := mem_ite_filterMap _ _ _ _ ht
                        rw [hsba]
                        exact ⟨rfl, by simp⟩
                  | none =>
                      simp only [hfind] at ha
                      cases hwin : env.we_are_the_winner with
                      | true =>
                          simp only [hwin, if_true] at ha
                          have := List.mem_singleton.mp ha
                          rw [this]
                          exact ⟨rfl, by simp⟩
                      | false => simp [hwin] at ha

theorem watchdog_no_ping (store : List Watchdog) (now threshold : Int) :
    ∀ a ∈ watchdog_check store now threshold, a ≠ Act.ping := by
  intro a ha
  unfold watchdog_check at ha
  rcases List.mem_append.mp ha with hl | hr
  · obtain ⟨wd, _, hwa⟩ := List.mem_map.mp hl
    rw [← hwa]
    simp
  · by_cases hlen : (activeWd store now threshold).length = 0
    · simp only [hlen, if_true] at hr
      have := List.mem_singleton.mp hr
      rw [this]
      simp
    · simp only [hlen, if_false] at hr
      cases hlast : (List.insertionSort wdR (activeWd store now threshold)).getLast? with
      | none => simp only [hlast] at hr; simp at hr
      | some winner =>
          simp only [hlast] at hr
          rcases List.mem_cons.mp hr with hh | ht
          · rw [hh]
            simp
          · obtain ⟨wd, _, hwa⟩ := List.mem_map.mp ht
            rw [← hwa]
            simp

/-- The ping-versus-watchdog property of one executed cycle: with daemon
sentinel-ping support the cycle pings and performs no watchdog vote or
creation; without it the cycle runs the watchdog consensus and never
pings. -/
def PingVsWatchdog (env : Env) : Prop :=
  (env.has_sentinel_ping = true →
      (main_run env).actions
        = Act.ping ::
          (prune_expired_proposals env.proposals env.now env.superblockcycle
            ++ attempt_superblock_creation (sbEnvOf env) env.superblocks
                env.votes env.candidate) ∧
      ∀ a ∈ (main_run env).actions, isWdAct a = false) ∧
  (env.has_sentinel_ping = false →
      (main_run env).actions
        = watchdog_check env.watchdogs env.now env.expiry_threshold
          ++ (prune_expired_proposals env.proposals env.now env.superblockcycle
              ++ attempt_superblock_creation (sbEnvOf env) env.superblocks
                  env.votes env.candidate) ∧
      Act.ping ∉ (main_run env).actions)

/-- Claim C10: in a cycle that passes the connectivity, sync, masternode
and scheduler gates, the watchdog consensus runs only when the daemon
lacks sentinel ping; with sentinel-ping support a ping is sent instead
and no watchdog vote or creation occurs. -/
theorem main_ping_vs_watchdog (env : Env)
    (hp : env.port_open = true) (hs : env.is_synced = true)
    (hm : env.is_masternode = true)
    (hrt : scheduler_is_run_time (if env.bypass then none else env.schedule)
        env.now = true) :
    PingVsWatchdog env := by
  have heq : main_run env = ⟨MainOutcome.ran,
      (if env.has_sentinel_ping then [Act.ping]
       else watchdog_check env.watchdogs env.now env.expiry_threshold)
      ++ prune_expired_proposals env.proposals env.now env.superblockcycle
      ++ attempt_superblock_creation (sbEnvOf env) env.superblocks
          env.votes env.candidate,
      some env.nextRunTime⟩ := by
    unfold main_run
    simp only [hp, hs, hm, hrt, Bool.not_true, Bool.false_eq_true, if_false]
  constructor
  · intro hping
    rw [heq]
    simp only [hping, if_true]
    constructor
    · simp
    · intro a ha
      rcases List.mem_append.mp ha with h12 | ha3
      · rcases List.mem_append.mp h12 with h1 | ha2
        · rw [List.mem_singleton.mp h1]
          rfl
        · exact (prune_no_wd_no_ping _ _ _ a ha2).1
      · exact (attempt_no_wd_no_ping _ _ _ _ a ha3).1
  · intro hping
    rw [heq]
    simp only [hping, Bool.false_eq_true, if_false]
    constructor
    · simp [List.append_assoc]
    · intro hmem
      rcases List.mem_append.mp hmem with h12 | ha3
      · rcases List.mem_append.mp h12 with hw | hp2
        · exact watchdog_no_ping _ _ _ _ hw rfl
        · exact (prune_no_wd_no_ping _ _ _ _ hp2).2 rfl
      · exact (attempt_no_wd_no_ping _ _ _ _ _ ha3).2 rfl

/-- Witness for main_ping_vs_watchdog at a concrete environment. -/
theorem main_ping_vs_watchdog_witness :
    (envPingEx.port_open = true ∧ envPingEx.is_synced = true ∧
     envPingEx.is_masternode = true ∧
     scheduler_is_run_time
        (if envPingEx.bypass then none else envPingEx.schedule)
        envPingEx.now = true) ∧
    PingVsWatchdog envPingEx :=
  ⟨⟨rfl, rfl, rfl, by decide⟩,
    main_ping_vs_watchdog envPingEx rfl rfl rfl (by decide)⟩

end Sentinel
